import Mathlib

/-!
Verification development for the collision-matrix assembly engine of
`phono3py/phonon3/collision_matrix.py` (class `CollisionMatrix`).

The Python code is shallowly embedded: NumPy double arrays become total
functions into `ℚ`, Python lists become `List`s, the Python dict built by
`_get_gp2tp_map` becomes an association list whose lookup returns an
`Option` (a `none` models a `KeyError`), and `np.sinh` becomes an abstract
function `sinhFn` carried in the state, so every statement holds for an
arbitrary numerical realisation of `sinh`.  The accumulation loops of
`_run_py_collision_matrix` and `_run_py_reducible_collision_matrix` are
embedded as structural recursions over the iteration lists, threading the
matrix-so-far exactly as the Python loops mutate it.
-/

/-- Unit constant `THzToEv` from `phonopy.units` (external dependency of the
repository): `4.13566733e-3`. -/
def THzToEv : ℚ := 413566733 / 100000000000

/-- Unit constant `Kb` from `phonopy.units` (external dependency of the
repository): Boltzmann constant in eV/K, `8.6173383e-5`. -/
def Kb : ℚ := 86173383 / 1000000000000

/-- Rank-3 reducible collision matrix: axes (band0, mesh point, band). -/
abbrev Mat3 := Nat → Nat → Nat → ℚ

/-- Rank-5 irreducible collision matrix: axes
(band0, Cartesian, irreducible point, band, Cartesian). -/
abbrev Mat5 := Nat → Fin 3 → Nat → Nat → Fin 3 → ℚ

/-- The zero-initialised reducible matrix allocated by `run()`. -/
def zeroMat3 : Mat3 := fun _ _ _ => 0

/-- The zero-initialised irreducible matrix allocated by `run()`. -/
def zeroMat5 : Mat5 := fun _ _ _ _ _ => 0

/-- State of a `CollisionMatrix` instance at the time `run()` executes, after a
grid point has been bound.  Fields mirror the `self._...` attributes read by
the assembly code: `triplets_at_q`, `triplets_map_at_q`, `ir_map_at_q`,
`frequencies`, `pp_strength` (indexed triplet, band0, band, companion band),
`g` (indexed kind, triplet, band0, band, companion band), the shape numbers
`num_band0`/`num_band` taken from `pp_strength.shape`, `mesh`,
`ir_grid_points`, `rot_grid_points`, `rotations_cartesian`, `temperature`,
`unit_conversion` and `cutoff_frequency`.  `sinhFn` models `np.sinh`; `imagSE`
models the imaginary self-energy produced by `_run_with_band_indices`
(inherited from `ImagSelfEnergy`, outside the assembly code). -/
structure CollisionState where
  triplets_at_q : List (Nat × Nat × Nat)
  triplets_map_at_q : List Nat
  ir_map_at_q : List Nat
  frequencies : Nat → Nat → ℚ
  pp_strength : Nat → Nat → Nat → Nat → ℚ
  g : Nat → Nat → Nat → Nat → Nat → ℚ
  num_band0 : Nat
  num_band : Nat
  mesh : List Nat
  ir_grid_points : List Nat
  rot_grid_points : List (List Nat)
  rotations_cartesian : List (Fin 3 → Fin 3 → ℚ)
  temperature : ℚ
  unit_conversion : ℚ
  cutoff_frequency : ℚ
  sinhFn : ℚ → ℚ
  imagSE : Nat → ℚ

/-- Number of mesh points, `np.prod(self._mesh)`. -/
def numMeshPoints (s : CollisionState) : Nat := s.mesh.prod

/-- Auxiliary loop of `_get_gp2tp_map`: walks the triplet map carrying the
running grid index `i` and the running dense counter `count`; whenever the
entry equals its own index, record the pair `(i, count)` and bump the
counter. -/
def gp2tp_aux : List Nat → Nat → Nat → List (Nat × Nat)
  | [], _, _ => []
  | j :: tl, i, count =>
    if i = j then (i, count) :: gp2tp_aux tl (i + 1) (count + 1)
    else gp2tp_aux tl (i + 1) count

/-- `_get_gp2tp_map`: the compaction map from stored representative grid
points to dense triplet indices, as an association list (the Python dict in
insertion order). -/
def get_gp2tp_map (tmap : List Nat) : List (Nat × Nat) :=
  gp2tp_aux tmap 0 0

/-- Lookup in a Python dict modelled as an association list; `none` models a
`KeyError`. -/
def dictLookup (m : List (Nat × Nat)) (a : Nat) : Option Nat :=
  (m.find? (fun p => p.1 == a)).map Prod.snd

/-- The lookup `gp2tp_map[self._triplets_map_at_q[gp]]` performed by both
assembly loops and by `_get_inv_sinh`. -/
def tripletIndex (s : CollisionState) (gp : Nat) : Option Nat :=
  dictLookup (get_gp2tp_map s.triplets_map_at_q) (s.triplets_map_at_q.getD gp 0)

/-- Per-band body of `_get_inv_sinh` once the companion grid point `gp2` is
chosen: `np.where(freqs > cutoff, np.sinh(freqs*THzToEv/(2*Kb*T)), -1.0)`
followed by `np.where(sinh > 0, 1.0/sinh, 0)`. -/
def invSinhEntry (s : CollisionState) (gp2 l : Nat) : ℚ :=
  let freq := s.frequencies gp2 l
  let sinhv :=
    if s.cutoff_frequency < freq
    then s.sinhFn (freq * THzToEv / (2 * Kb * s.temperature))
    else -1
  if 0 < sinhv then 1 / sinhv else 0

/-- Companion grid point chosen inside `_get_inv_sinh`: third triplet member
when `triplets_map_at_q[gp] == ir_map_at_q[gp]`, second one otherwise. -/
def companionPoint (s : CollisionState) (gp ti : Nat) : Nat :=
  let tp := s.triplets_at_q.getD ti (0, 0, 0)
  if s.triplets_map_at_q.getD gp 0 = s.ir_map_at_q.getD gp 0 then tp.2.2 else tp.2.1

/-- The per-band vector computed by `_get_inv_sinh` for resolved triplet index
`ti`. -/
def invSinhVec (s : CollisionState) (gp ti : Nat) : Nat → ℚ :=
  fun l => invSinhEntry s (companionPoint s gp ti) l

/-- `_get_inv_sinh(gp, gp2tp_map)`: fails (KeyError) exactly when the
compaction-map lookup fails. -/
def get_inv_sinh (s : CollisionState) (gp : Nat) : Option (Nat → ℚ) :=
  (tripletIndex s gp).map (fun ti => invSinhVec s gp ti)

/-- The scalar `collision` value of both Python assembly loops:
`(pp_strength[ti, j, k] * inv_sinh * g[2, ti, j, k]).sum()` followed by
`collision *= unit_conversion`. -/
def collisionScalar (s : CollisionState) (ti : Nat) (invs : Nat → ℚ) (j k : Nat) : ℚ :=
  (Finset.sum (Finset.range s.num_band)
    (fun l => s.pp_strength ti j k l * invs l * s.g 2 ti j k l)) * s.unit_conversion

/-- The scalar collision value contributed by grid point `gp` at band pair
`(j, k)`; `0` is never observed in a successful run because a failed lookup
aborts the whole loop. -/
def collisionAt (s : CollisionState) (gp j k : Nat) : ℚ :=
  match tripletIndex s gp with
  | none => 0
  | some ti => collisionScalar s ti (invSinhVec s gp ti) j k

/-- One iteration body of `_run_py_reducible_collision_matrix`: the two inner
band loops writing `self._collision_matrix[j, i, k] += collision`. -/
def addReducible (s : CollisionState) (mat : Mat3) (i ti : Nat) : Mat3 :=
  fun j i' k =>
    if i' = i ∧ j < s.num_band0 ∧ k < s.num_band
    then mat j i' k + collisionScalar s ti (invSinhVec s i ti) j k
    else mat j i' k

/-- The mesh-point loop of `_run_py_reducible_collision_matrix`; a failed
compaction-map lookup (`KeyError`) aborts the loop. -/
def reducibleLoop (s : CollisionState) : List Nat → Mat3 → Option Mat3
  | [], mat => some mat
  | i :: rest, mat =>
    match tripletIndex s i with
    | none => none
    | some ti => reducibleLoop s rest (addReducible s mat i ti)

/-- `_run_py_reducible_collision_matrix` on the zero matrix allocated by
`run()`. -/
def run_py_reducible_collision_matrix (s : CollisionState) : Option Mat3 :=
  reducibleLoop s (List.range (numMeshPoints s)) zeroMat3

/-- One iteration body of `_run_py_collision_matrix` for a single rotation:
the band loops writing `self._collision_matrix[j, :, i, k, :] += collision * r`. -/
def addIrreducible (s : CollisionState) (mat : Mat5) (i ti rgp : Nat)
    (r : Fin 3 → Fin 3 → ℚ) : Mat5 :=
  fun j a i' k b =>
    if i' = i ∧ j < s.num_band0 ∧ k < s.num_band
    then mat j a i' k b + collisionScalar s ti (invSinhVec s rgp ti) j k * r a b
    else mat j a i' k b

/-- The rotation loop of `_run_py_collision_matrix` for irreducible point
index `i`: `for r, r_gp in zip(rotations_cartesian, r_gps)`. -/
def irrRotLoop (s : CollisionState) (i : Nat) :
    List ((Fin 3 → Fin 3 → ℚ) × Nat) → Mat5 → Option Mat5
  | [], mat => some mat
  | (r, rgp) :: rest, mat =>
    match tripletIndex s rgp with
    | none => none
    | some ti => irrRotLoop s i rest (addIrreducible s mat i ti rgp r)

/-- The outer loop of `_run_py_collision_matrix` over irreducible point
indices. -/
def irrLoop (s : CollisionState) : List Nat → Mat5 → Option Mat5
  | [], mat => some mat
  | i :: rest, mat =>
    match irrRotLoop s i (s.rotations_cartesian.zip (s.rot_grid_points.getD i [])) mat with
    | none => none
    | some mat2 => irrLoop s rest mat2

/-- `_run_py_collision_matrix` on the zero matrix allocated by `run()`. -/
def run_py_collision_matrix (s : CollisionState) : Option Mat5 :=
  irrLoop s (List.range s.ir_grid_points.length) zeroMat5

/-- `run()` in the reducible configuration: the imaginary self-energy is
computed by `_run_with_band_indices` (modelled by the field `imagSE`), the
matrix is allocated as zeros of shape `(num_band0, prod mesh, num_band)`, and
`_run_collision_matrix` only accumulates when `temperature > 0`. -/
def run_reducible (s : CollisionState) : (Nat → ℚ) × Option Mat3 :=
  (s.imagSE,
   if 0 < s.temperature then run_py_reducible_collision_matrix s
   else some zeroMat3)

/-- `run()` in the irreducible configuration, analogously. -/
def run_irreducible (s : CollisionState) : (Nat → ℚ) × Option Mat5 :=
  (s.imagSE,
   if 0 < s.temperature then run_py_collision_matrix s
   else some zeroMat5)

/-- Data returned by the scattering-amplitude provider (`self._pp`) when a
grid point is bound: the tuple of `get_triplets_at_q()` plus `grid_address`,
`bz_map` and `get_phonons()`. -/
structure ProviderData where
  triplets : List (Nat × Nat × Nat)
  weights : List Nat
  tripletsMap : List Nat
  irMap : List Nat
  gridAddress : List (Int × Int × Int)
  bzMap : List Nat
  freqs : Nat → Nat → ℚ
  eigvecs : Nat → Nat → ℚ

/-- The mutable attributes touched by `set_grid_point`. -/
structure AssemblerState where
  grid_point : Option Nat
  pp_strength : Option (Nat → Nat → Nat → Nat → ℚ)
  triplets_at_q : List (Nat × Nat × Nat)
  weights_at_q : List Nat
  triplets_map_at_q : List Nat
  ir_map_at_q : List Nat
  grid_address : List (Int × Int × Int)
  bz_map : List Nat
  frequencies : Nat → Nat → ℚ
  eigenvectors : Nat → Nat → ℚ

/-- `set_grid_point`: with `None` it only writes `self._grid_point = None`;
with a concrete grid point it invalidates `self._pp_strength` and refreshes
the cached triplet/phonon data from the provider. -/
def set_grid_point (provider : Nat → ProviderData) (st : AssemblerState)
    (grid_point : Option Nat) : AssemblerState :=
  match grid_point with
  | none => { st with grid_point := none }
  | some gp =>
    let d := provider gp
    { st with
      pp_strength := none
      triplets_at_q := d.triplets
      weights_at_q := d.weights
      triplets_map_at_q := d.tripletsMap
      ir_map_at_q := d.irMap
      grid_address := d.gridAddress
      grid_point := some gp
      bz_map := d.bzMap
      frequencies := d.freqs
      eigenvectors := d.eigvecs }

/-- A small fully concrete run state: one mesh point, one triplet, one band,
temperature 1, cutoff 1, frequencies 2, strength 3, smearing weight 5, and
the numerical `sinh` realised as the constant function 2. -/
def baseState : CollisionState :=
  { triplets_at_q := [(0, 0, 0)]
    triplets_map_at_q := [0]
    ir_map_at_q := [0]
    frequencies := fun _ _ => 2
    pp_strength := fun _ _ _ _ => 3
    g := fun _ _ _ _ _ => 5
    num_band0 := 1
    num_band := 1
    mesh := [1, 1, 1]
    ir_grid_points := [0]
    rot_grid_points := [[0]]
    rotations_cartesian := [fun _ _ => 1]
    temperature := 1
    unit_conversion := 1
    cutoff_frequency := 1
    sinhFn := fun _ => 2
    imagSE := fun _ => 0 }

/-- Variant of `baseState` whose companion frequencies all sit at 0, below the
cutoff 1. -/
def sLowFreq : CollisionState := { baseState with frequencies := fun _ _ => 0 }

/-- Variant of `baseState` whose single stored triplet is `(0, 4, 7)`, so the
second and third members differ visibly. -/
def sTrip : CollisionState := { baseState with triplets_at_q := [(0, 4, 7)] }

/-- Claim C3: for every band of the companion mode, `_get_inv_sinh` returns
exactly 0 whenever the band frequency is at or below the cutoff, and whenever
the computed sinh value is not strictly positive; only when the frequency
exceeds the cutoff and the sinh value is strictly positive does it return the
reciprocal of that sinh value, so the division is always guarded. -/
theorem inv_sinh_guard (s : CollisionState) (gp2 l : Nat) :
    (s.frequencies gp2 l ≤ s.cutoff_frequency → invSinhEntry s gp2 l = 0) ∧
    (s.sinhFn (s.frequencies gp2 l * THzToEv / (2 * Kb * s.temperature)) ≤ 0 →
      invSinhEntry s gp2 l = 0) ∧
    (s.cutoff_frequency < s.frequencies gp2 l →
      0 < s.sinhFn (s.frequencies gp2 l * THzToEv / (2 * Kb * s.temperature)) →
      invSinhEntry s gp2 l =
        1 / s.sinhFn (s.frequencies gp2 l * THzToEv / (2 * Kb * s.temperature))) := by
  unfold invSinhEntry
  refine ⟨fun h => ?_, fun h => ?_, fun h h' => ?_⟩ <;>
    dsimp only <;> split_ifs <;> first | rfl | linarith

/-- Witness for C3: a sub-cutoff frequency yields exactly 0, and a
super-cutoff frequency with positive sinh value yields its reciprocal. -/
theorem inv_sinh_guard_witness :
    invSinhEntry sLowFreq 0 0 = 0 ∧ invSinhEntry baseState 0 0 = 1 / 2 := by
  constructor
  · exact (inv_sinh_guard sLowFreq 0 0).1 (by norm_num [sLowFreq, baseState])
  · have h := (inv_sinh_guard baseState 0 0).2.2 (by norm_num [baseState])
      (by norm_num [baseState])
    simpa [baseState] using h

/-- Claim C5: `_get_inv_sinh` takes the companion frequencies from the
triplet's third member exactly when the grid point's triplet-map value equals
its irreducible-map value, and from the second member otherwise. -/
theorem companion_member_selection (s : CollisionState) (gp ti : Nat) (v : Nat → ℚ)
    (hti : tripletIndex s gp = some ti) (hv : get_inv_sinh s gp = some v) :
    (s.triplets_map_at_q.getD gp 0 = s.ir_map_at_q.getD gp 0 →
      ∀ l, v l = invSinhEntry s (s.triplets_at_q.getD ti (0, 0, 0)).2.2 l) ∧
    (s.triplets_map_at_q.getD gp 0 ≠ s.ir_map_at_q.getD gp 0 →
      ∀ l, v l = invSinhEntry s (s.triplets_at_q.getD ti (0, 0, 0)).2.1 l) := by
  rw [get_inv_sinh, hti, Option.map_some'] at hv
  have hveq : v = invSinhVec s gp ti := (Option.some.injEq _ _).mp hv.symm
  subst hveq
  constructor
  · intro h l
    unfold invSinhVec companionPoint
    rw [if_pos h]
  · intro h l
    unfold invSinhVec companionPoint
    rw [if_neg h]

/-- Witness for C5: on `sTrip` the triplet-map and irreducible-map values of
grid point 0 agree, so the companion frequencies come from the third triplet
member, grid point 7. -/
theorem companion_member_selection_witness :
    invSinhVec sTrip 0 0 0 = invSinhEntry sTrip 7 0 := by
  have h := (companion_member_selection sTrip 0 0 (invSinhVec sTrip 0 0) rfl rfl).1
    (by norm_num [sTrip, baseState]) 0
  rw [show (sTrip.triplets_at_q.getD 0 (0, 0, 0)).2.2 = 7 from rfl] at h
  exact h

/-- Claim C9: for any frequencies and any temperature T > 0, every entry of
the vector returned by `_get_inv_sinh` is a well-defined non-negative
rational: it is either exactly 0 or the reciprocal of a strictly positive
sinh value, including when the sinh value underflows to 0 or is negative. -/
theorem inv_sinh_finite_nonneg (s : CollisionState) (gp ti : Nat) (v : Nat → ℚ)
    (_hT : 0 < s.temperature) (hti : tripletIndex s gp = some ti)
    (hv : get_inv_sinh s gp = some v) (l : Nat) :
    0 ≤ v l ∧
    (v l = 0 ∨
      (0 < s.sinhFn (s.frequencies (companionPoint s gp ti) l * THzToEv /
          (2 * Kb * s.temperature)) ∧
       v l = 1 / s.sinhFn (s.frequencies (companionPoint s gp ti) l * THzToEv /
          (2 * Kb * s.temperature)))) := by
  rw [get_inv_sinh, hti, Option.map_some'] at hv
  have hveq : v = invSinhVec s gp ti := (Option.some.injEq _ _).mp hv.symm
  subst hveq
  unfold invSinhVec invSinhEntry
  dsimp only
  split_ifs with h1 h2 h3
  · exact ⟨le_of_lt (by positivity), Or.inr ⟨h2, rfl⟩⟩
  · exact ⟨le_refl 0, Or.inl rfl⟩
  · exact absurd h3 (by norm_num)
  · exact ⟨le_refl 0, Or.inl rfl⟩

/-- Witness for C9 at the concrete state `baseState`. -/
theorem inv_sinh_finite_nonneg_witness :
    (0 : ℚ) < baseState.temperature ∧ 0 ≤ invSinhVec baseState 0 0 0 :=
  ⟨by norm_num [baseState],
   (inv_sinh_finite_nonneg baseState 0 0 (invSinhVec baseState 0 0)
     (by norm_num [baseState]) rfl rfl 0).1⟩

/-- A trivial provider for the `set_grid_point` state machine. -/
def provider0 : Nat → ProviderData := fun _ =>
  { triplets := []
    weights := []
    tripletsMap := []
    irMap := []
    gridAddress := []
    bzMap := []
    freqs := fun _ _ => 0
    eigvecs := fun _ _ => 0 }

/-- A bound assembler state holding a cached scattering strength. -/
def st0 : AssemblerState :=
  { grid_point := some 3
    pp_strength := some (fun _ _ _ _ => 1)
    triplets_at_q := []
    weights_at_q := []
    triplets_map_at_q := []
    ir_map_at_q := []
    grid_address := []
    bz_map := []
    frequencies := fun _ _ => 0
    eigenvectors := fun _ _ => 0 }

/-- Claim C6 counterexample: `set_grid_point(None)` does reach the unset
state, but the cached `pp_strength` is NOT cleared — on a state caching a
strength it is still cached afterwards, refuting the claim that the field is
`None` after the call. -/
theorem set_grid_point_none_cex :
    (set_grid_point provider0 st0 none).grid_point = none ∧
    (set_grid_point provider0 st0 none).pp_strength ≠ none := by
  refine ⟨rfl, ?_⟩
  have h : (set_grid_point provider0 st0 none).pp_strength =
      some (fun _ _ _ _ => (1 : ℚ)) := rfl
  rw [h]
  exact Option.some_ne_none _

/-- Claim C6 (amended): `set_grid_point(None)` transitions to the unset state
but leaves the cached scattering strength untouched; the cache is invalidated
only when binding a concrete grid point. -/
theorem set_grid_point_none_amended (provider : Nat → ProviderData)
    (st : AssemblerState) :
    (set_grid_point provider st none).grid_point = none ∧
    (set_grid_point provider st none).pp_strength = st.pp_strength :=
  ⟨rfl, rfl⟩

/-- Helper: membership of a key in an association list's first projection. -/
lemma mem_map_fst {l : List (Nat × Nat)} {a : Nat} :
    a ∈ l.map Prod.fst ↔ ∃ c, (a, c) ∈ l := by
  rw [List.mem_map]
  constructor
  · rintro ⟨⟨x, y⟩, hx, rfl⟩
    exact ⟨y, hx⟩
  · rintro ⟨c, hc⟩
    exact ⟨(a, c), hc, rfl⟩

/-- Keys recorded by the compaction-map builder on a suffix starting at offset
`i`: key `a` occurs exactly when the suffix holds value `a` at the position
whose absolute index is `a` itself. -/
lemma gp2tp_aux_keys (l : List Nat) : ∀ (i c a : Nat),
    (∃ cc, (a, cc) ∈ gp2tp_aux l i c) ↔ ∃ k, l.get? k = some a ∧ a = i + k := by
  induction l with
  | nil =>
    intro i c a
    simp [gp2tp_aux]
  | cons j tl ih =>
    intro i c a
    by_cases hij : i = j
    · rw [gp2tp_aux, if_pos hij]
      constructor
      · rintro ⟨cc, hcc⟩
        rcases List.mem_cons.mp hcc with h | h
        · have ha : a = i := congrArg Prod.fst h
          exact ⟨0, by rw [List.get?_cons_zero, ha, hij], by omega⟩
        · rcases (ih (i + 1) (c + 1) a).mp ⟨cc, h⟩ with ⟨k, hk, hak⟩
          exact ⟨k + 1, by rwa [List.get?_cons_succ], by omega⟩
      · rintro ⟨k, hk, hak⟩
        cases k with
        | zero =>
          refine ⟨c, List.mem_cons.mpr (Or.inl ?_)⟩
          rw [List.get?_cons_zero] at hk
          have : j = a := by injection hk
          simp [← this, ← hij]
        | succ k' =>
          rw [List.get?_cons_succ] at hk
          rcases (ih (i + 1) (c + 1) a).mpr ⟨k', hk, by omega⟩ with ⟨cc, hcc⟩
          exact ⟨cc, List.mem_cons.mpr (Or.inr hcc)⟩
    · rw [gp2tp_aux, if_neg hij]
      constructor
      · rintro ⟨cc, hcc⟩
        rcases (ih (i + 1) c a).mp ⟨cc, hcc⟩ with ⟨k, hk, hak⟩
        exact ⟨k + 1, by rwa [List.get?_cons_succ], by omega⟩
      · rintro ⟨k, hk, hak⟩
        cases k with
        | zero =>
          rw [List.get?_cons_zero] at hk
          have : j = a := by injection hk
          omega
        | succ k' =>
          rw [List.get?_cons_succ] at hk
          exact (ih (i + 1) c a).mpr ⟨k', hk, by omega⟩

/-- Keys of `_get_gp2tp_map`: exactly the grid points that are their own
triplet-map value. -/
lemma gp2tp_keys (tmap : List Nat) (a : Nat) :
    (∃ c, (a, c) ∈ get_gp2tp_map tmap) ↔ tmap.get? a = some a := by
  rw [get_gp2tp_map, gp2tp_aux_keys]
  constructor
  · rintro ⟨k, hk, hak⟩
    have hka : k = a := by omega
    subst hka
    exact hk
  · intro h
    exact ⟨a, h, by omega⟩

/-- Values recorded by the compaction-map builder: the consecutive counters
starting at `count`. -/
lemma gp2tp_aux_snd (l : List Nat) : ∀ (i c : Nat),
    (gp2tp_aux l i c).map Prod.snd = List.range' c (gp2tp_aux l i c).length := by
  induction l with
  | nil =>
    intro i c
    simp [gp2tp_aux]
  | cons j tl ih =>
    intro i c
    by_cases hij : i = j
    · rw [gp2tp_aux, if_pos hij]
      simp only [List.map_cons, List.length_cons, List.range'_succ]
      rw [ih (i + 1) (c + 1)]
    · rw [gp2tp_aux, if_neg hij]
      exact ih (i + 1) c

/-- Every key recorded on the suffix starting at offset `i` is at least `i`. -/
lemma gp2tp_aux_keys_ge (l : List Nat) : ∀ (i c a : Nat),
    a ∈ (gp2tp_aux l i c).map Prod.fst → i ≤ a := by
  induction l with
  | nil =>
    intro i c a h
    simp [gp2tp_aux] at h
  | cons j tl ih =>
    intro i c a h
    by_cases hij : i = j
    · rw [gp2tp_aux, if_pos hij] at h
      rw [List.map_cons] at h
      rcases List.mem_cons.mp h with h' | h'
      · omega
      · have := ih (i + 1) (c + 1) a h'
        omega
    · rw [gp2tp_aux, if_neg hij] at h
      have := ih (i + 1) c a h
      omega

/-- The keys of the compaction map appear in strictly increasing order. -/
lemma gp2tp_aux_keys_sorted (l : List Nat) : ∀ (i c : Nat),
    List.Sorted (· < ·) ((gp2tp_aux l i c).map Prod.fst) := by
  induction l with
  | nil =>
    intro i c
    simp [gp2tp_aux]
  | cons j tl ih =>
    intro i c
    by_cases hij : i = j
    · rw [gp2tp_aux, if_pos hij]
      rw [List.map_cons, List.sorted_cons]
      refine ⟨fun b hb => ?_, ih (i + 1) (c + 1)⟩
      have := gp2tp_aux_keys_ge tl (i + 1) (c + 1) b hb
      omega
    · rw [gp2tp_aux, if_neg hij]
      exact ih (i + 1) c

/-- The number of compaction-map entries equals the number of stored
representative grid points. -/
lemma gp2tp_count (tmap : List Nat) :
    (get_gp2tp_map tmap).length =
      ((List.range tmap.length).filter (fun a => tmap.get? a == some a)).length := by
  have h1 : ((get_gp2tp_map tmap).map Prod.fst).Nodup :=
    (gp2tp_aux_keys_sorted tmap 0 0).nodup
  have h2 : ((List.range tmap.length).filter
      (fun a => tmap.get? a == some a)).Nodup :=
    (List.nodup_range tmap.length).filter _
  have hperm : ((get_gp2tp_map tmap).map Prod.fst).Perm
      ((List.range tmap.length).filter (fun a => tmap.get? a == some a)) := by
    rw [List.perm_ext_iff_of_nodup h1 h2]
    intro a
    rw [mem_map_fst, gp2tp_keys]
    simp only [List.mem_filter, List.mem_range, beq_iff_eq]
    constructor
    · intro h
      exact ⟨(List.get?_eq_some.mp h).1, h⟩
    · rintro ⟨-, h⟩
      exact h
  have := hperm.length_eq
  rwa [List.length_map] at this

/-- Claim C7: the compaction map built from the triplet map has as keys
exactly the grid points equal to their own triplet-map value, in strictly
increasing key order, with the dense values `0..count-1` assigned in that
order, and the number of entries equals the number of stored representative
grid points. -/
theorem compaction_map_dense (tmap : List Nat) :
    (∀ a, (∃ c, (a, c) ∈ get_gp2tp_map tmap) ↔ tmap.get? a = some a) ∧
    List.Sorted (· < ·) ((get_gp2tp_map tmap).map Prod.fst) ∧
    (get_gp2tp_map tmap).map Prod.snd = List.range ((get_gp2tp_map tmap).length) ∧
    (get_gp2tp_map tmap).length =
      ((List.range tmap.length).filter (fun a => tmap.get? a == some a)).length := by
  refine ⟨gp2tp_keys tmap, gp2tp_aux_keys_sorted tmap 0 0, ?_, gp2tp_count tmap⟩
  rw [List.range_eq_range']
  exact gp2tp_aux_snd tmap 0 0

/-- A state whose triplet map `[1, 0]` is not idempotent: no grid point is its
own triplet-map value, so the compaction map is empty and every lookup
raises. -/
def sBadMap : CollisionState :=
  { baseState with
    triplets_map_at_q := [1, 0]
    ir_map_at_q := [0, 0]
    mesh := [2, 1, 1] }

/-- Claim C10: for a visited grid point `gp` whose triplet-map value is in
range, the compaction-map lookup made by the assembly loops succeeds exactly
when the triplet map is idempotent at `gp`; and on the concrete state
`sBadMap`, whose map violates idempotence, the reducible assembly aborts with
a failed lookup before producing any matrix. -/
theorem triplet_lookup_idem (s : CollisionState) (gp : Nat)
    (hv : s.triplets_map_at_q.getD gp 0 < s.triplets_map_at_q.length) :
    ((tripletIndex s gp).isSome ↔
      s.triplets_map_at_q.getD (s.triplets_map_at_q.getD gp 0) 0 =
        s.triplets_map_at_q.getD gp 0) ∧
    run_py_reducible_collision_matrix sBadMap = none := by
  constructor
  · have hmem : (tripletIndex s gp).isSome = true ↔
        ∃ c, (s.triplets_map_at_q.getD gp 0, c) ∈
          get_gp2tp_map s.triplets_map_at_q := by
      rw [tripletIndex, dictLookup, Option.isSome_map', List.find?_isSome]
      constructor
      · rintro ⟨⟨x, y⟩, hx, hpx⟩
        have hxa : x = s.triplets_map_at_q.getD gp 0 := by simpa using hpx
        subst hxa
        exact ⟨y, hx⟩
      · rintro ⟨c, hc⟩
        exact ⟨(s.triplets_map_at_q.getD gp 0, c), hc, by simp⟩
    rw [hmem, gp2tp_keys]
    constructor
    · intro h
      rw [List.getD_eq_getD_get?, h]
      rfl
    · intro h
      cases hq : s.triplets_map_at_q.get? (s.triplets_map_at_q.getD gp 0) with
      | none =>
        have := List.get?_eq_none.mp hq
        omega
      | some x =>
        have hx : x = s.triplets_map_at_q.getD gp 0 := by
          have hgd := List.getD_eq_getD_get? s.triplets_map_at_q 0
            (s.triplets_map_at_q.getD gp 0)
          rw [hq] at hgd
          rw [← h, hgd]
          rfl
        rw [hx]
  · rfl

/-- Witness for C10 at the concrete state `baseState`, whose triplet map `[0]`
is idempotent at grid point 0. -/
theorem triplet_lookup_idem_witness :
    baseState.triplets_map_at_q.getD 0 0 < baseState.triplets_map_at_q.length ∧
    ((tripletIndex baseState 0).isSome ↔
      baseState.triplets_map_at_q.getD (baseState.triplets_map_at_q.getD 0 0) 0 =
        baseState.triplets_map_at_q.getD 0 0) :=
  ⟨by decide, (triplet_lookup_idem baseState 0 (by decide)).1⟩

/-- Closed form of the reducible assembly loop: on success, each cell of the
result is the starting cell plus the collision contribution of its own mesh
point, provided the iteration list has no duplicates. -/
lemma reducibleLoop_entry (s : CollisionState) :
    ∀ (l : List Nat) (mat m : Mat3), l.Nodup → reducibleLoop s l mat = some m →
    ∀ j i k, m j i k = mat j i k +
      (if i ∈ l ∧ j < s.num_band0 ∧ k < s.num_band
       then collisionAt s i j k else 0) := by
  intro l
  induction l with
  | nil =>
    intro mat m _ h j i k
    rw [reducibleLoop] at h
    injection h with h'
    simp [← h']
  | cons i0 tl ih =>
    intro mat m hnd h j i k
    cases hti : tripletIndex s i0 with
    | none =>
      rw [reducibleLoop, hti] at h
      exact absurd h (by simp)
    | some ti =>
      rw [reducibleLoop, hti] at h
      have hi0 : i0 ∉ tl := (List.nodup_cons.mp hnd).1
      have hrec := ih (addReducible s mat i0 ti) m (List.nodup_cons.mp hnd).2 h j i k
      have hca : collisionScalar s ti (invSinhVec s i0 ti) j k = collisionAt s i0 j k := by
        rw [collisionAt, hti]
      rw [hrec]
      simp only [addReducible]
      by_cases hii : i = i0
      · subst hii
        by_cases hjk : j < s.num_band0 ∧ k < s.num_band
        · rw [if_pos ⟨rfl, hjk⟩,
              if_neg (fun hc : i ∈ tl ∧ _ ∧ _ => hi0 hc.1),
              if_pos ⟨List.mem_cons_self i tl, hjk⟩, hca]
          ring
        · rw [if_neg (fun hc : i = i ∧ _ ∧ _ => hjk hc.2),
              if_neg (fun hc : i ∈ tl ∧ _ ∧ _ => hjk hc.2),
              if_neg (fun hc : i ∈ i :: tl ∧ _ ∧ _ => hjk hc.2)]
      · rw [if_neg (fun hc : i = i0 ∧ _ ∧ _ => hii hc.1)]
        have hiff : (i ∈ tl ∧ j < s.num_band0 ∧ k < s.num_band) ↔
            (i ∈ i0 :: tl ∧ j < s.num_band0 ∧ k < s.num_band) := by
          simp [List.mem_cons, hii]
        rw [if_congr hiff rfl rfl]

/-- Claim C1: with a positive temperature, the reducible `run()` produces the
matrix whose entry at `(band0 j, mesh point i, band k)` is exactly
`unit_conversion` times the companion-band sum of
`strength * inv_sinh * g[2]` for the representative triplet of `i`, and is
zero outside the allocated shape `(num_band0, num_mesh_points, num_band)`. -/
theorem reducible_matrix_entries (s : CollisionState) (m : Mat3)
    (hT : 0 < s.temperature) (hrun : (run_reducible s).2 = some m) :
    (∀ j i k ti, j < s.num_band0 → i < numMeshPoints s → k < s.num_band →
      tripletIndex s i = some ti →
      m j i k = s.unit_conversion * Finset.sum (Finset.range s.num_band)
        (fun l => s.pp_strength ti j k l * invSinhVec s i ti l * s.g 2 ti j k l)) ∧
    (∀ j i k, s.num_band0 ≤ j ∨ numMeshPoints s ≤ i ∨ s.num_band ≤ k →
      m j i k = 0) := by
  rw [run_reducible] at hrun
  dsimp only at hrun
  rw [if_pos hT, run_py_reducible_collision_matrix] at hrun
  have hmain := reducibleLoop_entry s (List.range (numMeshPoints s)) zeroMat3 m
    (List.nodup_range _) hrun
  constructor
  · intro j i k ti hj hi hk hti
    have h := hmain j i k
    rw [if_pos ⟨List.mem_range.mpr hi, hj, hk⟩] at h
    rw [h]
    simp only [zeroMat3, collisionAt, hti, collisionScalar]
    ring
  · intro j i k hout
    have h := hmain j i k
    rw [if_neg ?side] at h
    case side =>
      rintro ⟨hmem, hj, hk⟩
      rcases hout with h' | h' | h'
      · omega
      · exact absurd (List.mem_range.mp hmem) (by omega)
      · omega
    simpa [zeroMat3] using h

/-- Witness for C1: on `baseState` the single matrix cell carries the value
`3 * (1/2) * 5 = 15/2`. -/
theorem reducible_matrix_entries_witness :
    (0 : ℚ) < baseState.temperature ∧
    (Option.getD (run_reducible baseState).2 zeroMat3) 0 0 0 =
      baseState.unit_conversion * Finset.sum (Finset.range baseState.num_band)
        (fun l => baseState.pp_strength 0 0 0 l * invSinhVec baseState 0 0 l *
          baseState.g 2 0 0 0 l) :=
  ⟨by norm_num [baseState],
   (reducible_matrix_entries baseState
      (Option.getD (run_reducible baseState).2 zeroMat3)
      (by norm_num [baseState]) rfl).1 0 0 0 0
      (by norm_num [baseState]) (by norm_num [baseState, numMeshPoints])
      (by norm_num [baseState]) rfl⟩

/-- Closed form of the rotation loop for one irreducible point index `i0`: on
success, cells with mesh index `i0` gain the rotation-weighted sum of the
collision scalars of the zipped (rotation, rotated grid point) pairs, and all
other cells are untouched. -/
lemma irrRotLoop_entry (s : CollisionState) (i0 : Nat) :
    ∀ (ps : List ((Fin 3 → Fin 3 → ℚ) × Nat)) (mat m : Mat5),
      irrRotLoop s i0 ps mat = some m →
      ∀ j (a : Fin 3) i k (b : Fin 3), m j a i k b = mat j a i k b +
        (if i = i0 ∧ j < s.num_band0 ∧ k < s.num_band
         then ((ps.map (fun p => collisionAt s p.2 j k * p.1 a b)).sum) else 0) := by
  intro ps
  induction ps with
  | nil =>
    intro mat m h j a i k b
    rw [irrRotLoop] at h
    injection h with h'
    simp [← h']
  | cons p tl ih =>
    intro mat m h j a i k b
    obtain ⟨r, rgp⟩ := p
    cases hti : tripletIndex s rgp with
    | none =>
      rw [irrRotLoop, hti] at h
      exact absurd h (by simp)
    | some ti =>
      rw [irrRotLoop, hti] at h
      have hrec := ih (addIrreducible s mat i0 ti rgp r) m h j a i k b
      have hca : collisionScalar s ti (invSinhVec s rgp ti) j k =
          collisionAt s rgp j k := by
        rw [collisionAt, hti]
      rw [hrec]
      simp only [addIrreducible, List.map_cons, List.sum_cons]
      by_cases hc : i = i0 ∧ j < s.num_band0 ∧ k < s.num_band
      · rw [if_pos hc, if_pos hc, if_pos hc, hca]
        ring
      · rw [if_neg hc, if_neg hc, if_neg hc]

/-- Closed form of the outer irreducible assembly loop over a duplicate-free
list of irreducible point indices. -/
lemma irrLoop_entry (s : CollisionState) :
    ∀ (l : List Nat) (mat m : Mat5), l.Nodup → irrLoop s l mat = some m →
    ∀ j (a : Fin 3) i k (b : Fin 3), m j a i k b = mat j a i k b +
      (if i ∈ l ∧ j < s.num_band0 ∧ k < s.num_band
       then (((s.rotations_cartesian.zip (s.rot_grid_points.getD i [])).map
         (fun p => collisionAt s p.2 j k * p.1 a b)).sum) else 0) := by
  intro l
  induction l with
  | nil =>
    intro mat m _ h j a i k b
    rw [irrLoop] at h
    injection h with h'
    simp [← h']
  | cons i0 tl ih =>
    intro mat m hnd h j a i k b
    cases hrot : irrRotLoop s i0
        (s.rotations_cartesian.zip (s.rot_grid_points.getD i0 [])) mat with
    | none =>
      rw [irrLoop, hrot] at h
      exact absurd h (by simp)
    | some mat2 =>
      rw [irrLoop, hrot] at h
      have hstep := irrRotLoop_entry s i0 _ mat mat2 hrot j a i k b
      have hrec := ih mat2 m (List.nodup_cons.mp hnd).2 h j a i k b
      have hi0 : i0 ∉ tl := (List.nodup_cons.mp hnd).1
      rw [hrec, hstep]
      by_cases hii : i = i0
      · subst hii
        by_cases hjk : j < s.num_band0 ∧ k < s.num_band
        · rw [if_pos ⟨rfl, hjk⟩, if_neg (fun hc : i ∈ tl ∧ _ ∧ _ => hi0 hc.1),
              if_pos ⟨List.mem_cons_self i tl, hjk⟩]
          ring
        · rw [if_neg (fun hc : i = i ∧ _ ∧ _ => hjk hc.2),
              if_neg (fun hc : i ∈ tl ∧ _ ∧ _ => hjk hc.2),
              if_neg (fun hc : i ∈ i :: tl ∧ _ ∧ _ => hjk hc.2)]
          ring
      · rw [if_neg (fun hc : i = i0 ∧ _ ∧ _ => hii hc.1)]
        have hiff : (i ∈ tl ∧ j < s.num_band0 ∧ k < s.num_band) ↔
            (i ∈ i0 :: tl ∧ j < s.num_band0 ∧ k < s.num_band) := by
          simp [List.mem_cons, hii]
        rw [if_congr hiff rfl rfl]
        ring

/-- Claim C2: with a positive temperature, the irreducible `run()` produces
the rank-5 matrix whose entry at `(j, a, i, k, b)` is, inside the allocated
shape `(num_band0, 3, #ir_grid_points, num_band, 3)`, the sum over the zipped
pairs (Cartesian rotation `r`, rotated grid point `r_gp`) of
`rot_grid_points[i]` of the scalar collision value of `r_gp` — the very value
the reducible variant computes, spelled out in the first conjunct — times
`r a b`, and zero outside that shape. -/
theorem irreducible_matrix_entries (s : CollisionState) (m : Mat5)
    (hT : 0 < s.temperature) (hrun : (run_irreducible s).2 = some m) :
    (∀ gp j k ti, tripletIndex s gp = some ti →
      collisionAt s gp j k = s.unit_conversion * Finset.sum (Finset.range s.num_band)
        (fun l => s.pp_strength ti j k l * invSinhVec s gp ti l * s.g 2 ti j k l)) ∧
    (∀ j (a : Fin 3) i k (b : Fin 3),
      j < s.num_band0 → i < s.ir_grid_points.length → k < s.num_band →
      m j a i k b = (((s.rotations_cartesian.zip (s.rot_grid_points.getD i [])).map
        (fun p => collisionAt s p.2 j k * p.1 a b)).sum)) ∧
    (∀ j (a : Fin 3) i k (b : Fin 3),
      s.num_band0 ≤ j ∨ s.ir_grid_points.length ≤ i ∨ s.num_band ≤ k →
      m j a i k b = 0) := by
  rw [run_irreducible] at hrun
  dsimp only at hrun
  rw [if_pos hT, run_py_collision_matrix] at hrun
  have hmain := irrLoop_entry s (List.range s.ir_grid_points.length) zeroMat5 m
    (List.nodup_range _) hrun
  refine ⟨?_, ?_, ?_⟩
  · intro gp j k ti hti
    simp only [collisionAt, hti, collisionScalar]
    ring
  · intro j a i k b hj hi hk
    have h := hmain j a i k b
    rw [if_pos ⟨List.mem_range.mpr hi, hj, hk⟩] at h
    simpa [zeroMat5] using h
  · intro j a i k b hout
    have h := hmain j a i k b
    rw [if_neg ?side] at h
    case side =>
      rintro ⟨hmem, hj, hk⟩
      rcases hout with h' | h' | h'
      · omega
      · exact absurd (List.mem_range.mp hmem) (by omega)
      · omega
    simpa [zeroMat5] using h

/-- Witness for C2 on `baseState`, with its single irreducible point, single
rotation and single band. -/
theorem irreducible_matrix_entries_witness :
    (0 : ℚ) < baseState.temperature ∧
    (Option.getD (run_irreducible baseState).2 zeroMat5) 0 0 0 0 0 =
      (((baseState.rotations_cartesian.zip (baseState.rot_grid_points.getD 0 [])).map
        (fun p => collisionAt baseState p.2 0 0 * p.1 0 0)).sum) :=
  ⟨by norm_num [baseState],
   (irreducible_matrix_entries baseState
      (Option.getD (run_irreducible baseState).2 zeroMat5)
      (by norm_num [baseState]) rfl).2.1 0 0 0 0 0
      (by norm_num [baseState]) (by norm_num [baseState]) (by norm_num [baseState])⟩

/-- Claim C4: for temperature at or below zero, `run()` skips the collision
accumulation entirely in both variants, leaving exactly the all-zero
allocated matrix, while the imaginary self-energy is produced unconditionally
by the same computation whatever the temperature guard decides. -/
theorem zero_temperature_guard (s : CollisionState) (hT : s.temperature ≤ 0) :
    (run_reducible s).2 = some zeroMat3 ∧
    (run_irreducible s).2 = some zeroMat5 ∧
    (run_reducible s).1 = s.imagSE ∧
    (run_irreducible s).1 = s.imagSE := by
  refine ⟨?_, ?_, rfl, rfl⟩
  · rw [run_reducible]
    dsimp only
    rw [if_neg (not_lt.mpr hT)]
  · rw [run_irreducible]
    dsimp only
    rw [if_neg (not_lt.mpr hT)]

/-- The concrete state `baseState` frozen to temperature zero. -/
def sZeroT : CollisionState := { baseState with temperature := 0 }

/-- Witness for C4 at temperature zero. -/
theorem zero_temperature_guard_witness :
    sZeroT.temperature ≤ 0 ∧ (run_reducible sZeroT).2 = some zeroMat3 :=
  ⟨by norm_num [sZeroT, baseState],
   (zero_temperature_guard sZeroT (by norm_num [sZeroT, baseState])).1⟩
